import Mathlib

/-!
Verification development for the Stride sprint-tracking core: a shallow
embedding of the markdown structural extraction, sprint state resolution,
metrics calculation, analytics cache validity and sprint folder scanning
logic, together with theorems settling the specification claims.

Python strings are modelled as Lean String values, but every operation on
them (split, strip, startswith, substring search, the regular expressions)
is implemented here over the underlying character lists, so that all
definitions reduce in the kernel.
-/

namespace Stride

/-! ### Python string primitives -/

/-- Whitespace class of the Python regex escape for whitespace and of
str.strip, restricted to the ASCII range (the repository only feeds ASCII
markdown through these functions). -/
def isPyWs (c : Char) : Bool :=
  c = ' ' || c = '\t' || c = '\n' || c = '\r' || c = '\x0b' || c = '\x0c'

/-- str.strip on a character list: drop whitespace from both ends. -/
def trimC (cs : List Char) : List Char :=
  ((cs.dropWhile isPyWs).reverse.dropWhile isPyWs).reverse

/-- str.split with separator a single newline; on the empty string Python
returns a one-element list holding the empty string. -/
def splitOnNl : List Char → List (List Char)
  | [] => [[]]
  | c :: cs =>
    if c = '\n' then [] :: splitOnNl cs
    else match splitOnNl cs with
      | [] => [[c]]
      | l :: ls => (c :: l) :: ls

/-- content.split on a newline, as a list of line strings. -/
def splitLinesS (s : String) : List String :=
  (splitOnNl s.data).map String.mk

/-- str.strip. -/
def trimS (s : String) : String := String.mk (trimC s.data)

/-- str.startswith. -/
def startsWithS (s p : String) : Bool := p.data.isPrefixOf s.data

/-- Rejoining collected lines with newlines, as in a join on a newline. -/
def joinNl (ls : List String) : String :=
  String.mk (List.intercalate ['\n'] (ls.map String.data))

/-- Substring containment on character lists (the Python in operator). -/
def hasSubC (needle : List Char) : List Char → Bool
  | [] => needle.isEmpty
  | c :: cs => needle.isPrefixOf (c :: cs) || hasSubC needle cs

/-- The Python in operator on strings. -/
def hasSubS (hay needle : String) : Bool := hasSubC needle.data hay.data

/-! ### Regex building blocks

The three regular expressions of the markdown module are hand-compiled
below. Greedy and lazy repetition are resolved exactly as the Python
backtracking engine does on these patterns: a greedy whitespace run
followed by a literal that can never be whitespace commits to the maximal
run; a greedy whitespace run followed by a dot group backtracks by at most
one character when the maximal run would leave the group empty. -/

/-- Length of the leading whitespace run. -/
def leadWsCount : List Char → Nat
  | [] => 0
  | c :: cs => if isPyWs c then leadWsCount cs + 1 else 0

/-- Match a literal character sequence and return the remainder. -/
def dropLit : List Char → List Char → Option (List Char)
  | [], cs => some cs
  | _ :: _, [] => none
  | p :: ps, c :: cs => if c = p then dropLit ps cs else none

/-- Index of the first occurrence of two consecutive asterisks. -/
def firstStars : List Char → Option Nat
  | '*' :: '*' :: _ => some 0
  | _ :: cs => (firstStars cs).map (· + 1)
  | [] => none

/-- Index of the first closing square bracket. -/
def firstRBracket : List Char → Option Nat
  | [] => none
  | c :: cs => if c = ']' then some 0 else (firstRBracket cs).map (· + 1)

/-- Numeric value of a digit run. -/
def digitsVal (ds : List Char) : Nat :=
  ds.foldl (fun a c => a * 10 + (c.toNat - '0'.toNat)) 0

/-- One-or-more whitespace then a one-or-more dot group reaching the end of
the line. The whitespace run is maximal unless that would leave the group
empty, in which case the engine backtracks one whitespace character. -/
def wsPlusRest (seg : List Char) : Option (List Char) :=
  let m := leadWsCount seg
  if m = 0 then none
  else if m < seg.length then some (seg.drop m)
  else if 2 ≤ m then some (seg.drop (m - 1))
  else none

/-- One-or-more whitespace then a lazy one-or-more dot group followed by two
asterisks. The group ends at the first double asterisk that leaves it
nonempty; if the only double asterisk follows the whitespace run
immediately, the engine backtracks one whitespace character. -/
def wsPlusLazyStars (seg : List Char) : Option (List Char) :=
  let m := leadWsCount seg
  if m = 0 then none
  else
    match (firstStars (seg.drop (m + 1))).map (· + (m + 1)) with
    | some p => some ((seg.drop m).take (p - m))
    | none =>
      if (seg.drop m).take 2 = ['*', '*'] then
        if 2 ≤ m then some ((seg.drop (m - 1)).take 1) else none
      else none

/-- One-or-more whitespace then a one-or-more group of non-bracket
characters followed by a closing bracket; returns the group and the
remainder after the bracket. -/
def wsPlusNonBracket (seg : List Char) : Option (List Char × List Char) :=
  let m := leadWsCount seg
  if m = 0 then none
  else
    match firstRBracket seg with
    | none => none
    | some p =>
      if m < p then some ((seg.drop m).take (p - m), seg.drop (p + 1))
      else if 2 ≤ m then some ((seg.drop (m - 1)).take 1, seg.drop (p + 1))
      else none

/-! ### The three anchored patterns -/

/-- The stride heading pattern: three hashes, whitespace, a bold marker and
the word Stride, whitespace, a captured digit run, a colon, whitespace, a
lazily captured name, a closing bold marker. Returns the captured number
and the raw name group. -/
def matchStrideHeading (line : String) : Option (Nat × String) :=
  match dropLit ['#', '#', '#'] line.data with
  | none => none
  | some r1 =>
    let m1 := leadWsCount r1
    if m1 = 0 then none else
    match dropLit "**Stride".data (r1.drop m1) with
    | none => none
    | some r2 =>
      let m2 := leadWsCount r2
      if m2 = 0 then none else
      let r3 := r2.drop m2
      let ds := r3.takeWhile Char.isDigit
      if ds = [] then none else
      match r3.drop ds.length with
      | ':' :: r4 =>
        match wsPlusLazyStars r4 with
        | some nameChars => some (digitsVal ds, String.mk nameChars)
        | none => none
      | _ => none

/-- The implementation log heading pattern: two hashes, whitespace, a
bracketed timestamp label with a captured timestamp, whitespace, a stride
label with a captured name. Returns the raw timestamp and name groups. -/
def matchTimestamp (line : String) : Option (String × String) :=
  match dropLit ['#', '#'] line.data with
  | none => none
  | some r1 =>
    let m1 := leadWsCount r1
    if m1 = 0 then none else
    match dropLit "[Timestamp:".data (r1.drop m1) with
    | none => none
    | some r2 =>
      match wsPlusNonBracket r2 with
      | none => none
      | some (g1, r3) =>
        let m3 := leadWsCount r3
        if m3 = 0 then none else
        match dropLit "Stride:".data (r3.drop m3) with
        | none => none
        | some r4 =>
          match wsPlusRest r4 with
          | some g2 => some (String.mk g1, String.mk g2)
          | none => none

/-- The checkbox pattern: optional leading whitespace, a dash, whitespace,
a bracketed mark that is a space or the letter x in either case, whitespace
and the captured item text. Returns the mark character and the raw text
group. -/
def checkboxMatch (line : String) : Option (Char × String) :=
  let cs := line.data
  match cs.drop (leadWsCount cs) with
  | '-' :: r1 =>
    let m1 := leadWsCount r1
    if m1 = 0 then none else
    match r1.drop m1 with
    | '[' :: mk :: ']' :: r2 =>
      if mk = ' ' || mk = 'x' || mk = 'X' then
        match wsPlusRest r2 with
        | some g2 => some (mk, String.mk g2)
        | none => none
      else none
    | _ => none
  | _ => none

/-- The checked flag derived from the mark character by lowercasing it and
comparing with the letter x. -/
def markChecked (mk : Char) : Bool := mk = 'x' || mk = 'X'

/-! ### extract_section -/

/-- A run of hash characters of the given length, the heading prefix. -/
def headingHashes (level : Nat) : String := String.mk (List.replicate level '#')

/-- The line-scanning loop of extract_section: a line whose stripped form
starts with the target is skipped and turns the collecting flag on; while
collecting, a line starting with the prefix and a space (and not with the
prefix and a further hash) ends the scan, and every other line is
collected. -/
def sectionGo (pfx target : String) : List String → Bool → List String
  | [], _ => []
  | l :: rest, inSec =>
    if startsWithS (trimS l) target then sectionGo pfx target rest true
    else if inSec then
      if startsWithS l (pfx ++ " ") && !(startsWithS l (pfx ++ "#")) then []
      else l :: sectionGo pfx target rest true
    else sectionGo pfx target rest false

/-- extract_section from the markdown module: collect the lines of the
first section under the requested heading and return them joined and
stripped. -/
def extract_section (content heading : String) (level : Nat) : String :=
  let pfx := headingHashes level
  let target := pfx ++ " " ++ heading
  trimS (joinNl (sectionGo pfx target (splitLinesS content) false))

/-- Lines strictly after the first line whose stripped form starts with the
target heading, or none when no line does. -/
def dropToTarget (target : String) : List String → Option (List String)
  | [] => none
  | l :: rest => if startsWithS (trimS l) target then some rest else dropToTarget target rest

/-- The claim reading of extract_section: after the first occurrence of the
target heading, collect every line up to the next line beginning with the
same heading-level prefix followed by a space, deeper headings not
terminating the section; join and strip, empty when the heading is
absent. -/
def extract_section_claim (content heading : String) (level : Nat) : String :=
  let pfx := headingHashes level
  let target := pfx ++ " " ++ heading
  match dropToTarget target (splitLinesS content) with
  | none => ""
  | some rest =>
    trimS (joinNl (rest.takeWhile
      (fun l => !(startsWithS l (pfx ++ " ") && !(startsWithS l (pfx ++ "#"))))))

/-- The amended reading of extract_section: as in the claim, except that a
later line that itself matches the target heading after stripping does not
terminate the section and is skipped rather than collected. -/
def extract_section_amended (content heading : String) (level : Nat) : String :=
  let pfx := headingHashes level
  let target := pfx ++ " " ++ heading
  match dropToTarget target (splitLinesS content) with
  | none => ""
  | some rest =>
    trimS (joinNl (((rest.takeWhile (fun l =>
        startsWithS (trimS l) target ||
          !(startsWithS l (pfx ++ " ") && !(startsWithS l (pfx ++ "#"))))).filter
      (fun l => !(startsWithS (trimS l) target)))))

/-! ### parse_strides -/

/-- A checkbox item: text, checked flag and one-based line number. -/
structure CheckboxItem where
  text : String
  checked : Bool
  line_number : Nat
deriving DecidableEq

/-- A stride record as built by the plan scanner. -/
structure StrideInfo where
  number : Nat
  name : String
  purpose : String
  tasks : List CheckboxItem
  completion_definition : String
deriving DecidableEq

/-- The active subsection inside a stride block. -/
inductive StrideSec
  | purpose
  | tasks
  | completion
deriving DecidableEq

/-- The loop state of parse_strides: the line index, the stride under
construction, the active subsection and the finished strides. -/
structure PSState where
  i : Nat
  cur : Option StrideInfo
  sec : Option StrideSec
  acc : List StrideInfo
deriving DecidableEq

/-- Append the stride under construction, if any, to the finished list. -/
def flushCur (s : PSState) : List StrideInfo :=
  s.acc ++ (match s.cur with | some c => [c] | none => [])

/-- One iteration of the while loop of parse_strides. A stride heading
flushes the previous stride and starts a new one. Inside a stride, the
three literal markers select a subsection; a line starting with three
hashes or three dashes ends the subsection, except that a hash line
containing the word Stride is deferred to the next iteration without
advancing the index; otherwise the line is folded into the active
subsection. -/
def parse_strides_step (lines : List String) (s : PSState) : PSState :=
  let line := lines.getD s.i ""
  match matchStrideHeading line with
  | some (n, nm) =>
    { i := s.i + 1, cur := some ⟨n, trimS nm, "", [], ""⟩, sec := none, acc := flushCur s }
  | none =>
    match s.cur with
    | none => { s with i := s.i + 1 }
    | some c =>
      if startsWithS line "**Purpose:**" then
        { s with sec := some .purpose, i := s.i + 1 }
      else if startsWithS line "**Tasks:**" then
        { s with sec := some .tasks, i := s.i + 1 }
      else if startsWithS line "**Completion Definition:**" then
        { s with sec := some .completion, i := s.i + 1 }
      else if startsWithS line "###" || startsWithS line "---" then
        if startsWithS line "###" && hasSubS line "Stride" then
          s
        else
          { s with sec := none, i := s.i + 1 }
      else
        match s.sec with
        | some .purpose =>
          if trimS line ≠ "" ∧ startsWithS line "[" = false then
            let c2 := { c with purpose := c.purpose ++ trimS line ++ " " }
            { s with cur := some c2, i := s.i + 1 }
          else { s with i := s.i + 1 }
        | some .tasks =>
          match checkboxMatch line with
          | some (mk, raw) =>
            let c2 := { c with tasks := c.tasks ++ [⟨trimS raw, markChecked mk, s.i + 1⟩] }
            { s with cur := some c2, i := s.i + 1 }
          | none => { s with i := s.i + 1 }
        | some .completion =>
          if trimS line ≠ "" ∧ startsWithS line "[" = false then
            let c2 :=
              { c with completion_definition := c.completion_definition ++ trimS line ++ " " }
            { s with cur := some c2, i := s.i + 1 }
          else { s with i := s.i + 1 }
        | none => { s with i := s.i + 1 }

/-- The while loop of parse_strides, instrumented with fuel: none means the
fuel ran out with the loop still running. -/
def parse_strides_loop (lines : List String) : Nat → PSState → Option (List StrideInfo)
  | 0, _ => none
  | fuel + 1, s =>
    if s.i < lines.length then
      parse_strides_loop lines fuel (parse_strides_step lines s)
    else
      some (flushCur s)

/-- parse_strides on a content string, with fuel bounding the number of
loop iterations. -/
def parse_strides (content : String) (fuel : Nat) : Option (List StrideInfo) :=
  parse_strides_loop (splitLinesS content) fuel ⟨0, none, none, []⟩

end Stride

-- sanity checks on parse_strides for a well-formed document
example :
    Stride.parse_strides
      "### **Stride 1: Setup**\n**Purpose:**\nGet ready\n**Tasks:**\n- [x] a\n- [ ] b\n---\n### **Stride 2: Build**\n**Tasks:**\n- [ ] c"
      100 =
    some
      [⟨1, "Setup", "Get ready ", [⟨"a", true, 5⟩, ⟨"b", false, 6⟩], ""⟩,
       ⟨2, "Build", "", [⟨"c", false, 10⟩], ""⟩] := by decide

namespace Stride

/-! ### parse_implementation_logs -/

/-- One implementation log entry. -/
structure LogEntry where
  timestamp : String
  stride_name : String
  tasks_addressed : List String
  decisions : List String
  notes : List String
  changes : List String
deriving DecidableEq

/-- The active subsection of a log entry. -/
inductive LogSec
  | tasks
  | decisions
  | notes
  | changes
deriving DecidableEq

/-- The scan state of parse_implementation_logs. -/
structure LogState where
  cur : Option LogEntry
  sec : Option LogSec
  acc : List LogEntry

/-- Append a bulleted item to the active subsection of an entry. -/
def addLogItem (e : LogEntry) (sec : LogSec) (item : String) : LogEntry :=
  match sec with
  | .tasks => { e with tasks_addressed := e.tasks_addressed ++ [item] }
  | .decisions => { e with decisions := e.decisions ++ [item] }
  | .notes => { e with notes := e.notes ++ [item] }
  | .changes => { e with changes := e.changes ++ [item] }

/-- One line of the parse_implementation_logs scan: a timestamp heading
flushes the previous entry and opens a new one; inside an entry the four
subheadings select a subsection and a dash rule clears it; a bulleted line
under an active subsection is stripped of its dash and appended unless it
is empty or a bracketed template placeholder. -/
def logStep (st : LogState) (line : String) : LogState :=
  match matchTimestamp line with
  | some (ts, sn) =>
    { cur := some ⟨trimS ts, trimS sn, [], [], [], []⟩, sec := none,
      acc := st.acc ++ (match st.cur with | some e => [e] | none => []) }
  | none =>
    match st.cur with
    | none => st
    | some e =>
      if startsWithS line "### Tasks Addressed" then { st with sec := some .tasks }
      else if startsWithS line "### Decisions" then { st with sec := some .decisions }
      else if startsWithS line "### Notes" then { st with sec := some .notes }
      else if startsWithS line "### Changes Made" then { st with sec := some .changes }
      else if startsWithS line "---" then { st with sec := none }
      else
        match st.sec with
        | none => st
        | some sec =>
          if trimS line ≠ "" ∧ startsWithS line "-" = true then
            let item := trimS (String.mk ((trimS line).data.drop 1))
            if startsWithS item "[" = false ∧ item ≠ "" then
              { st with cur := some (addLogItem e sec item) }
            else st
          else st

/-- The full scan of parse_implementation_logs in file order, with the last
open entry flushed. -/
def scanLogs (content : String) : List LogEntry :=
  let fin := (splitLinesS content).foldl logStep ⟨none, none, []⟩
  fin.acc ++ (match fin.cur with | some e => [e] | none => [])

/-- parse_implementation_logs: the scanned entries reversed so the last
entry in the file comes first, truncated by the limit only when the limit
is a truthy value, a negative limit slicing from the end as in Python. -/
def parse_implementation_logs (content : String) (limit : Option Int) : List LogEntry :=
  let entries := (scanLogs content).reverse
  match limit with
  | none => entries
  | some n =>
    if n = 0 then entries
    else if 0 ≤ n then entries.take n.toNat
    else entries.take (entries.length - n.natAbs)

/-! ### Data models from models.py -/

/-- A stride milestone with tasks, as in the progress data model. -/
structure StrideTask where
  stride_number : Nat
  stride_name : String
  purpose : String
  tasks : List CheckboxItem
  completion_definition : String
deriving DecidableEq

/-- Count of completed tasks: the checked checkboxes. -/
def StrideTask.completed_tasks (s : StrideTask) : Nat :=
  s.tasks.countP (fun t => t.checked)

/-- Total number of tasks. -/
def StrideTask.total_tasks (s : StrideTask) : Nat := s.tasks.length

/-- Percentage of tasks completed, zero when there are no tasks. -/
def StrideTask.completion_percentage (s : StrideTask) : ℚ :=
  if s.total_tasks = 0 then 0
  else (s.completed_tasks : ℚ) / (s.total_tasks : ℚ) * 100

/-- Overall sprint progress. -/
structure SprintProgress where
  total_tasks : Nat
  completed_tasks : Nat
  completion_percentage : ℚ
  strides : List StrideTask
  acceptance_criteria_total : Nat
  acceptance_criteria_completed : Nat
  acceptance_criteria_percentage : ℚ
deriving DecidableEq

/-- The current stride: the scan of the strides list returning the first
stride whose completed count is below its total, none otherwise. -/
def currentStrideGo : List StrideTask → Option StrideTask
  | [] => none
  | s :: rest =>
    if s.completed_tasks < s.total_tasks then some s else currentStrideGo rest

/-- The current_stride property of SprintProgress. -/
def SprintProgress.current_stride (p : SprintProgress) : Option StrideTask :=
  currentStrideGo p.strides

/-- Stable insertion of a stride into a list sorted by stride number. -/
def insertByNumber (x : StrideTask) : List StrideTask → List StrideTask
  | [] => [x]
  | y :: ys =>
    if x.stride_number ≤ y.stride_number then x :: y :: ys else y :: insertByNumber x ys

/-- Stable insertion sort of strides by stride number. -/
def sortByNumber : List StrideTask → List StrideTask
  | [] => []
  | x :: xs => insertByNumber x (sortByNumber xs)

/-- current_stride as the claim states it, in stride-number order. -/
def currentStrideByNumber (p : SprintProgress) : Option StrideTask :=
  currentStrideGo (sortByNumber p.strides)

/-! ### Sprint status resolution from sprint_manager -/

/-- The sprint lifecycle status enumeration. -/
inductive SprintStatus
  | proposed
  | active
  | review
  | completed
deriving DecidableEq

/-- Which of the tracked files exist in a sprint directory. -/
structure SprintDir where
  retrospective : Bool
  implementation : Bool
  plan : Bool
  proposal : Bool
deriving DecidableEq

/-- Status resolution: completed when the retrospective exists, else active
when the implementation log exists, else proposed whether or not the plan
exists. -/
def determine_status (d : SprintDir) : SprintStatus :=
  if d.retrospective then .completed
  else if d.implementation then .active
  else if d.plan then .proposed
  else .proposed

/-! ### Progress rollup from sprint_manager and calculate_completion -/

/-- calculate_completion: completed count, total count and percentage for a
checkbox list, all zero on the empty list. -/
def calculate_completion (l : List CheckboxItem) : Nat × Nat × ℚ :=
  if l.isEmpty then (0, 0, 0)
  else
    let total := l.length
    let completed := l.countP (fun cb => cb.checked)
    (completed, total, if 0 < total then (completed : ℚ) / (total : ℚ) * 100 else 0)

/-- The progress rollup: totals summed across strides, the percentage from
the sums, and the acceptance criteria statistics from
calculate_completion. -/
def calculate_progress (strides : List StrideTask) (acceptance : List CheckboxItem) :
    SprintProgress :=
  let total := (strides.map StrideTask.total_tasks).sum
  let completed := (strides.map StrideTask.completed_tasks).sum
  let pct : ℚ := if 0 < total then (completed : ℚ) / (total : ℚ) * 100 else 0
  let acr := calculate_completion acceptance
  ⟨total, completed, pct, strides, acr.2.1, acr.1, acr.2.2⟩

/-! ### Metrics calculation -/

/-- Analytics sprint record, restricted to the fields the velocity trend
reads. -/
structure SprintDataM where
  completed_tasks : Nat
deriving DecidableEq

/-- The arithmetic mean of the statistics module: raises on an empty input,
modelled as none. -/
def meanQ : List ℚ → Option ℚ
  | [] => none
  | l => some (l.sum / (l.length : ℚ))

/-- The velocity trend over the chronologically sorted sprints: with fewer
than four sprints the fixed insufficient-data answer; otherwise the halves
are compared by the mean completed-task count of their sprints with a
positive completed count. A raised mean, from a half with no positive
sprint, is propagated as none. -/
def calculate_velocity_trend (sorted : List SprintDataM) : Option String :=
  if sorted.length < 4 then some "insufficient_data"
  else
    let mid := sorted.length / 2
    let older := sorted.take mid
    let recent := sorted.drop mid
    let olderVel := meanQ (((older.filter (fun s => 0 < s.completed_tasks)).map
      (fun s => (s.completed_tasks : ℚ))))
    let recentVel := meanQ (((recent.filter (fun s => 0 < s.completed_tasks)).map
      (fun s => (s.completed_tasks : ℚ))))
    match olderVel, recentVel with
    | some ov, some rv =>
      some (if ov * (11 / 10) < rv then "improving"
        else if rv < ov * (9 / 10) then "declining"
        else "stable")
    | _, _ => none

/-- Integer truncation toward zero, the Python int conversion of a float. -/
def truncInt (q : ℚ) : ℤ := if 0 ≤ q then ⌊q⌋ else -⌊-q⌋

/-- The health score: the truncated weighted blend of the completion rate,
the task completion rate, the process adoption rate and the complement of
the abandonment rate. -/
def health_score (completion task adoption abandonment : ℚ) : ℤ :=
  truncInt (completion * (4 / 10) + task * (3 / 10) + adoption * (2 / 10) +
    (100 - abandonment) * (1 / 10))

/-- The overall status thresholds on the health score. -/
def assess_overall_status (h : ℤ) : String :=
  if 80 ≤ h then "excellent"
  else if 60 ≤ h then "good"
  else if 40 ≤ h then "fair"
  else "needs_improvement"

/-! ### Analytics cache validity -/

/-- The in-memory cache state: whether any cache data is loaded, and the
stored checksum map as an association list in insertion order. -/
structure CacheState where
  loaded : Bool
  stored : List (String × String)

/-- Mapping lookup, the dict get method with a default of none. -/
def lookupS (m : List (String × String)) (k : String) : Option String :=
  match m with
  | [] => none
  | p :: rest => if p.1 = k then some p.2 else lookupS rest k

/-- The per-sprint comparison loop of is_cache_valid: false at the first
current entry whose stored checksum is absent or different. -/
def checksAll (stored : List (String × String)) : List (String × String) → Bool
  | [] => true
  | p :: rest =>
    if lookupS stored p.1 ≠ some p.2 then false else checksAll stored rest

/-- is_cache_valid: false when no cache data is loaded, false when the
stored and current checksum maps differ in size, false when some current
sprint has a differing or absent stored checksum, true otherwise. -/
def is_cache_valid (st : CacheState) (current : List (String × String)) : Bool :=
  if st.loaded = false then false
  else if st.stored.length ≠ current.length then false
  else checksAll st.stored current

/-! ### Sprint folder scanning from sprint_parser -/

/-- An immediate child of the sprints root. -/
structure DirEntry where
  name : String
  isDir : Bool
deriving DecidableEq

/-- The leftmost occurrence of the sprint number pattern: the literal
sprint prefix followed by at least one digit, searched at every start
position, the digit run taken greedily. -/
def findSprintNum : List Char → Option Nat
  | [] => none
  | c :: cs =>
    match dropLit "sprint-".data (c :: cs) with
    | some rest =>
      let ds := rest.takeWhile Char.isDigit
      if ds = [] then findSprintNum cs else some (digitsVal ds)
    | none => findSprintNum cs

/-- The numeric part of a sprint identifier, zero when the pattern does not
occur. -/
def extract_sprint_number (sprint_id : String) : Nat :=
  match findSprintNum sprint_id.data with
  | some n => n
  | none => 0

/-- Stable insertion of a directory entry into a list sorted by sprint
number. -/
def insertBySprintNumber (x : DirEntry) : List DirEntry → List DirEntry
  | [] => [x]
  | y :: ys =>
    if extract_sprint_number x.name ≤ extract_sprint_number y.name then x :: y :: ys
    else y :: insertBySprintNumber x ys

/-- Stable sort of directory entries by sprint number, the Python sorted
builtin with the sprint number key. -/
def sortBySprintNumber : List DirEntry → List DirEntry
  | [] => []
  | x :: xs => insertBySprintNumber x (sortBySprintNumber xs)

/-- scan_sprint_folders over the immediate children of the sprints root:
keep the directories whose name starts with the lowercase sprint prefix and
sort them by their embedded number. -/
def scan_sprint_folders (entries : List DirEntry) : List DirEntry :=
  sortBySprintNumber (entries.filter (fun e => e.isDir && startsWithS e.name "sprint-"))

/-! ## Theorems settling the claims -/

/-- C5: for every sprint directory the resolved status is completed when
the retrospective exists, otherwise active when the implementation log
exists, otherwise proposed whether or not the plan exists; consequently the
review status is never returned. -/
theorem claim_c5_status_resolution (d : SprintDir) :
    determine_status d =
      (if d.retrospective then SprintStatus.completed
       else if d.implementation then SprintStatus.active
       else SprintStatus.proposed) ∧
    determine_status d ≠ SprintStatus.review := by
  obtain ⟨r, i, p, q⟩ := d
  cases r <;> cases i <;> cases p <;> cases q <;> exact ⟨rfl, by decide⟩

/-- C2: with four sprints whose completed task counts are all zero, both
halves of the velocity-trend comparison filter to an empty list, the mean
of the statistics module raises, and the velocity trend produces no
classification at all, refuting the claim that a classification among
improving, declining and stable is always returned without an exception
once four sprints are present. -/
theorem claim_c2_velocity_trend_raises :
    ([(⟨0⟩ : SprintDataM), ⟨0⟩, ⟨0⟩, ⟨0⟩].length = 4) ∧
    calculate_velocity_trend [⟨0⟩, ⟨0⟩, ⟨0⟩, ⟨0⟩] = none := by
  exact ⟨rfl, rfl⟩

/-- C8: the limit handling of parse_implementation_logs treats a zero limit
as no limit at all, returning the full reversed entry list, and a positive
limit returns the first entries of the reversed list. -/
theorem claim_c8_log_limit (content : String) :
    parse_implementation_logs content (some 0) = parse_implementation_logs content none ∧
    ∀ n : Int, 0 < n →
      parse_implementation_logs content (some n) =
        (parse_implementation_logs content none).take n.toNat := by
  constructor
  · simp [parse_implementation_logs]
  · intro n hn
    have h0 : ¬ (n = 0) := by omega
    have h1 : (0 : Int) ≤ n := le_of_lt hn
    simp [parse_implementation_logs, h0, h1]

/-- Witness for C8 at a concrete content and the limit one. -/
theorem claim_c8_log_limit_witness :
    (0 : Int) < 1 ∧
    parse_implementation_logs "" (some 1) =
      (parse_implementation_logs "" none).take (Int.toNat 1) :=
  ⟨by decide, (claim_c8_log_limit "").2 1 (by decide)⟩

/-- The comparison loop of is_cache_valid succeeds exactly when every
current entry has its stored checksum present and equal. -/
theorem checksAll_iff (stored current : List (String × String)) :
    checksAll stored current = true ↔ ∀ p ∈ current, lookupS stored p.1 = some p.2 := by
  induction current with
  | nil => simp [checksAll]
  | cons p rest ih =>
    by_cases h : lookupS stored p.1 = some p.2
    · simp [checksAll, h, ih]
    · simp [checksAll, h]

/-- C6: is_cache_valid is true exactly when cache data is loaded, the
stored and current checksum maps have the same size, and every current
sprint identifier has an equal stored checksum; it is false when no cache
is loaded, when the sizes differ, or when some current identifier has an
absent or different stored checksum. -/
theorem claim_c6_cache_validity (st : CacheState) (current : List (String × String)) :
    is_cache_valid st current = true ↔
      st.loaded = true ∧ st.stored.length = current.length ∧
        ∀ p ∈ current, lookupS st.stored p.1 = some p.2 := by
  unfold is_cache_valid
  by_cases h1 : st.loaded = false
  · simp [h1]
  · have h1' : st.loaded = true := by revert h1; cases st.loaded <;> simp
    by_cases h2 : st.stored.length = current.length
    · simp [h1', h2, checksAll_iff]
    · simp [h1', h2]

/-- Witness for C6: a loaded cache with the single matching entry validates
against the identical current map. -/
theorem claim_c6_cache_validity_witness :
    is_cache_valid ⟨true, [("A", "x")]⟩ [("A", "x")] = true :=
  (claim_c6_cache_validity ⟨true, [("A", "x")]⟩ [("A", "x")]).mpr
    ⟨rfl, rfl, by decide⟩

/-- The stride scan of current_stride returns none exactly when no stride
is incomplete. -/
theorem currentStrideGo_eq_none (ls : List StrideTask) :
    currentStrideGo ls = none ↔ ∀ s ∈ ls, s.total_tasks ≤ s.completed_tasks := by
  induction ls with
  | nil => simp [currentStrideGo]
  | cons x rest ih =>
    by_cases h : x.completed_tasks < x.total_tasks
    · rw [currentStrideGo, if_pos h]
      constructor
      · intro hx
        exact absurd hx (by simp)
      · intro hall
        exact absurd (hall x (List.mem_cons_self x rest)) (by omega)
    · rw [currentStrideGo, if_neg h, ih]
      constructor
      · intro hall s hs
        rcases List.mem_cons.mp hs with rfl | hs'
        · omega
        · exact hall s hs'
      · intro hall s hs
        exact hall s (List.mem_cons_of_mem x hs)

/-- The stride scan of current_stride returns the first incomplete stride
in list order: it is incomplete and everything before it is complete. -/
theorem currentStrideGo_eq_some (ls : List StrideTask) (s : StrideTask)
    (h : currentStrideGo ls = some s) :
    s.completed_tasks < s.total_tasks ∧
      ∃ l₁ l₂, ls = l₁ ++ s :: l₂ ∧ ∀ t ∈ l₁, t.total_tasks ≤ t.completed_tasks := by
  induction ls with
  | nil => simp [currentStrideGo] at h
  | cons x rest ih =>
    by_cases hx : x.completed_tasks < x.total_tasks
    · rw [currentStrideGo, if_pos hx, Option.some_inj] at h
      subst h
      exact ⟨hx, [], rest, rfl, by simp⟩
    · rw [currentStrideGo, if_neg hx] at h
      obtain ⟨h1, l₁, l₂, heq, hall⟩ := ih h
      refine ⟨h1, x :: l₁, l₂, by rw [heq]; rfl, ?_⟩
      intro t ht
      rcases List.mem_cons.mp ht with rfl | ht'
      · omega
      · exact hall t ht'

/-- C4 counterexample: with the strides listed out of numeric order and
both incomplete, current_stride returns the first stride in list order,
stride number two, and not the first stride in stride-number order, stride
number one, refuting the claim as stated. -/
theorem claim_c4_counterexample :
    SprintProgress.current_stride
        ⟨2, 0, 0,
          [⟨2, "two", "", [⟨"t", false, 1⟩], ""⟩, ⟨1, "one", "", [⟨"u", false, 1⟩], ""⟩],
          0, 0, 0⟩ =
      some ⟨2, "two", "", [⟨"t", false, 1⟩], ""⟩ ∧
    currentStrideByNumber
        ⟨2, 0, 0,
          [⟨2, "two", "", [⟨"t", false, 1⟩], ""⟩, ⟨1, "one", "", [⟨"u", false, 1⟩], ""⟩],
          0, 0, 0⟩ =
      some ⟨1, "one", "", [⟨"u", false, 1⟩], ""⟩ ∧
    SprintProgress.current_stride
        ⟨2, 0, 0,
          [⟨2, "two", "", [⟨"t", false, 1⟩], ""⟩, ⟨1, "one", "", [⟨"u", false, 1⟩], ""⟩],
          0, 0, 0⟩ ≠
      currentStrideByNumber
        ⟨2, 0, 0,
          [⟨2, "two", "", [⟨"t", false, 1⟩], ""⟩, ⟨1, "one", "", [⟨"u", false, 1⟩], ""⟩],
          0, 0, 0⟩ := by
  exact ⟨by decide, by decide, by decide⟩

/-- C4 amended: current_stride is the first stride in list order, the
document order of the plan, whose completed count is below its total; it is
none exactly when every stride is complete or the list is empty. -/
theorem claim_c4_current_stride (p : SprintProgress) :
    (p.current_stride = none ↔ ∀ s ∈ p.strides, s.total_tasks ≤ s.completed_tasks) ∧
    ∀ s, p.current_stride = some s →
      s.completed_tasks < s.total_tasks ∧
        ∃ l₁ l₂, p.strides = l₁ ++ s :: l₂ ∧ ∀ t ∈ l₁, t.total_tasks ≤ t.completed_tasks :=
  ⟨currentStrideGo_eq_none p.strides, fun s h => currentStrideGo_eq_some p.strides s h⟩

/-- C1 evidence: on a document whose second line starts with three hashes
and contains the word Stride but does not match the stride heading pattern,
the loop of parse_strides reaches a state it never leaves and never
advances the line index, so no amount of fuel completes the scan: the while
loop runs forever instead of returning a stride list. -/
theorem claim_c1_parse_strides_nonterminating :
    ∀ fuel, parse_strides "### **Stride 1: A**\n### Stride 2: B" fuel = none := by
  have hL : splitLinesS "### **Stride 1: A**\n### Stride 2: B" =
      ["### **Stride 1: A**", "### Stride 2: B"] := by decide
  have hstep0 :
      parse_strides_step ["### **Stride 1: A**", "### Stride 2: B"] ⟨0, none, none, []⟩ =
        ⟨1, some ⟨1, "A", "", [], ""⟩, none, []⟩ := by decide
  have hstep1 :
      parse_strides_step ["### **Stride 1: A**", "### Stride 2: B"]
          ⟨1, some ⟨1, "A", "", [], ""⟩, none, []⟩ =
        ⟨1, some ⟨1, "A", "", [], ""⟩, none, []⟩ := by decide
  have hstuck : ∀ fuel,
      parse_strides_loop ["### **Stride 1: A**", "### Stride 2: B"] fuel
        ⟨1, some ⟨1, "A", "", [], ""⟩, none, []⟩ = none := by
    intro fuel
    induction fuel with
    | zero => rfl
    | succ n ih =>
      simp only [parse_strides_loop]
      rw [if_pos (by decide), hstep1]
      exact ih
  intro fuel
  cases fuel with
  | zero => rfl
  | succ n =>
    unfold parse_strides
    rw [hL]
    simp only [parse_strides_loop]
    rw [if_pos (by decide), hstep0]
    exact hstuck n

/-- The collecting phase of the section scan equals the takeWhile of the
non-terminating lines with the target-matching lines filtered out. -/
theorem sectionGo_true_eq (pfx target : String) (ls : List String) :
    sectionGo pfx target ls true =
      (ls.takeWhile (fun l =>
          startsWithS (trimS l) target ||
            !(startsWithS l (pfx ++ " ") && !(startsWithS l (pfx ++ "#"))))).filter
        (fun l => !(startsWithS (trimS l) target)) := by
  induction ls with
  | nil => rfl
  | cons l rest ih =>
    cases h1 : startsWithS (trimS l) target
    · cases hA : startsWithS l (pfx ++ " ") <;> cases hB : startsWithS l (pfx ++ "#") <;>
        simp [sectionGo, List.takeWhile_cons, List.filter_cons, h1, hA, hB, ih]
    · simp [sectionGo, List.takeWhile_cons, List.filter_cons, h1, ih]

/-- The searching phase of the section scan drops everything through the
first target-matching line and then collects. -/
theorem sectionGo_false_eq (pfx target : String) (ls : List String) :
    sectionGo pfx target ls false =
      (match dropToTarget target ls with
       | none => []
       | some rest => sectionGo pfx target rest true) := by
  induction ls with
  | nil => rfl
  | cons l rest ih =>
    cases h1 : startsWithS (trimS l) target
    · simp [sectionGo, dropToTarget, h1, ih]
    · simp [sectionGo, dropToTarget, h1]

/-- C3 counterexample: on a document where the target heading occurs a
second time, the second occurrence begins with the heading-level prefix and
a space, yet extract_section does not stop there: it skips the line and
keeps collecting, so the claim as stated fails. -/
theorem claim_c3_counterexample :
    extract_section "## A\nfoo\n## A\nbar" "A" 2 = "foo\nbar" ∧
    extract_section_claim "## A\nfoo\n## A\nbar" "A" 2 = "foo" ∧
    extract_section "## A\nfoo\n## A\nbar" "A" 2 ≠
      extract_section_claim "## A\nfoo\n## A\nbar" "A" 2 := by
  exact ⟨by decide, by decide, by decide⟩

/-- C3 amended: extract_section collects the lines after the first
occurrence of the target heading, stopping at the next line beginning with
the heading-level prefix and a space except that lines matching the target
heading itself are skipped and do not terminate; it returns the trimmed
joined lines and the empty string when the heading does not occur; on the
two-section example it returns the body of the named section and the empty
string for an absent heading. -/
theorem claim_c3_extract_section :
    (∀ content heading level,
        extract_section content heading level = extract_section_amended content heading level) ∧
    extract_section "## A\nfoo\n## B\nbar" "A" 2 = "foo" ∧
    extract_section "## A\nfoo\n## B\nbar" "C" 2 = "" := by
  refine ⟨fun content heading level => ?_, by decide, by decide⟩
  simp only [extract_section, extract_section_amended]
  rw [sectionGo_false_eq]
  cases hd : dropToTarget (headingHashes level ++ " " ++ heading) (splitLinesS content) with
  | none => rfl
  | some rest =>
    exact congrArg (fun x => trimS (joinNl x))
      (sectionGo_true_eq (headingHashes level) (headingHashes level ++ " " ++ heading) rest)

/-- C7: the health score is the truncation of the weighted blend; with all
four input rates between zero and one hundred the score lies between zero
and one hundred; and the overall status brackets the score at the three
documented thresholds. -/
theorem claim_c7_health_score (a b c d : ℚ)
    (ha0 : 0 ≤ a) (ha1 : a ≤ 100) (hb0 : 0 ≤ b) (hb1 : b ≤ 100)
    (hc0 : 0 ≤ c) (hc1 : c ≤ 100) (hd0 : 0 ≤ d) (hd1 : d ≤ 100) :
    health_score a b c d =
      truncInt (a * (4 / 10) + b * (3 / 10) + c * (2 / 10) + (100 - d) * (1 / 10)) ∧
    0 ≤ health_score a b c d ∧ health_score a b c d ≤ 100 ∧
    ∀ h : ℤ,
      (80 ≤ h → assess_overall_status h = "excellent") ∧
      (60 ≤ h → h < 80 → assess_overall_status h = "good") ∧
      (40 ≤ h → h < 60 → assess_overall_status h = "fair") ∧
      (h < 40 → assess_overall_status h = "needs_improvement") := by
  have hq0 : 0 ≤ a * (4 / 10) + b * (3 / 10) + c * (2 / 10) + (100 - d) * (1 / 10) := by
    linarith
  have hq1 : a * (4 / 10) + b * (3 / 10) + c * (2 / 10) + (100 - d) * (1 / 10) ≤ 100 := by
    linarith
  have hfl : health_score a b c d =
      ⌊a * (4 / 10) + b * (3 / 10) + c * (2 / 10) + (100 - d) * (1 / 10)⌋ := by
    rw [health_score, truncInt, if_pos hq0]
  have h100 : ⌊(100 : ℚ)⌋ = (100 : ℤ) := by norm_num
  refine ⟨rfl, ?_, ?_, ?_⟩
  · rw [hfl]
    exact Int.floor_nonneg.mpr hq0
  · rw [hfl]
    exact le_trans (Int.floor_le_floor hq1) (le_of_eq h100)
  · intro h
    refine ⟨?_, ?_, ?_, ?_⟩ <;> intros <;> unfold assess_overall_status <;> split_ifs <;>
      first
        | rfl
        | omega

/-- Witness for C7 at full rates and zero abandonment. -/
theorem claim_c7_health_score_witness :
    (0 : ℚ) ≤ 100 ∧
    0 ≤ health_score 100 100 100 0 ∧ health_score 100 100 100 0 ≤ 100 :=
  ⟨by norm_num,
   (claim_c7_health_score 100 100 100 0 (by norm_num) (by norm_num) (by norm_num)
       (by norm_num) (by norm_num) (by norm_num) (by norm_num) (by norm_num)).2.1,
   (claim_c7_health_score 100 100 100 0 (by norm_num) (by norm_num) (by norm_num)
       (by norm_num) (by norm_num) (by norm_num) (by norm_num) (by norm_num)).2.2.1⟩

/-- Inserting an entry into a sorted run is a permutation of consing it. -/
theorem insertBySprintNumber_perm (x : DirEntry) (l : List DirEntry) :
    List.Perm (insertBySprintNumber x l) (x :: l) := by
  induction l with
  | nil => exact List.Perm.refl _
  | cons y ys ih =>
    by_cases h : extract_sprint_number x.name ≤ extract_sprint_number y.name
    · rw [insertBySprintNumber, if_pos h]
    · rw [insertBySprintNumber, if_neg h]
      exact (ih.cons y).trans (List.Perm.swap x y ys)

/-- The sprint-number sort is a permutation of its input. -/
theorem sortBySprintNumber_perm (l : List DirEntry) :
    List.Perm (sortBySprintNumber l) l := by
  induction l with
  | nil => exact List.Perm.refl _
  | cons x xs ih =>
    exact (insertBySprintNumber_perm x (sortBySprintNumber xs)).trans (ih.cons x)

/-- Insertion preserves sortedness by sprint number. -/
theorem insertBySprintNumber_pairwise (x : DirEntry) (l : List DirEntry)
    (h : l.Pairwise (fun a b => extract_sprint_number a.name ≤ extract_sprint_number b.name)) :
    (insertBySprintNumber x l).Pairwise
      (fun a b => extract_sprint_number a.name ≤ extract_sprint_number b.name) := by
  induction l with
  | nil => simp [insertBySprintNumber]
  | cons y ys ih =>
    obtain ⟨hy, hys⟩ := List.pairwise_cons.mp h
    by_cases hle : extract_sprint_number x.name ≤ extract_sprint_number y.name
    · rw [insertBySprintNumber, if_pos hle]
      refine List.pairwise_cons.mpr ⟨?_, h⟩
      intro z hz
      rcases List.mem_cons.mp hz with rfl | hz'
      · exact hle
      · exact le_trans hle (hy z hz')
    · rw [insertBySprintNumber, if_neg hle]
      refine List.pairwise_cons.mpr ⟨?_, ih hys⟩
      intro z hz
      rcases List.mem_cons.mp ((insertBySprintNumber_perm x ys).mem_iff.mp hz) with rfl | hz'
      · omega
      · exact hy z hz'

/-- The sprint-number sort produces a list sorted by sprint number. -/
theorem sortBySprintNumber_pairwise (l : List DirEntry) :
    (sortBySprintNumber l).Pairwise
      (fun a b => extract_sprint_number a.name ≤ extract_sprint_number b.name) := by
  induction l with
  | nil => simp [sortBySprintNumber]
  | cons x xs ih => exact insertBySprintNumber_pairwise x (sortBySprintNumber xs) ih

/-- C9: scan_sprint_folders keeps exactly the immediate children that are
directories whose name starts with the lowercase sprint prefix, returns
them ordered ascending by the embedded sprint number with a missing number
read as zero, and every returned entry satisfies the filter, so a
directory with any other naming is excluded. -/
theorem claim_c9_scan_sprint_folders (entries : List DirEntry) :
    List.Perm (scan_sprint_folders entries)
      (entries.filter (fun e => e.isDir && startsWithS e.name "sprint-")) ∧
    (scan_sprint_folders entries).Pairwise
      (fun a b => extract_sprint_number a.name ≤ extract_sprint_number b.name) ∧
    ∀ e ∈ scan_sprint_folders entries,
      e.isDir = true ∧ startsWithS e.name "sprint-" = true := by
  refine ⟨sortBySprintNumber_perm _, sortBySprintNumber_pairwise _, ?_⟩
  intro e he
  have hm := (sortBySprintNumber_perm
    (entries.filter (fun e => e.isDir && startsWithS e.name "sprint-"))).mem_iff.mp he
  have hp := (List.mem_filter.mp hm).2
  exact ⟨(Bool.and_eq_true _ _ ▸ hp).1, (Bool.and_eq_true _ _ ▸ hp).2⟩

/-- Witness for C9 at a concrete directory listing holding two sprint
directories out of order, an uppercase-named directory and a file. -/
theorem claim_c9_scan_sprint_folders_witness :
    (⟨"sprint-2", true⟩ : DirEntry) ∈
      scan_sprint_folders
        [⟨"sprint-10", true⟩, ⟨"SPRINT-AB12", true⟩, ⟨"sprint-2", true⟩, ⟨"notes", false⟩] ∧
    ((⟨"sprint-2", true⟩ : DirEntry).isDir = true ∧
      startsWithS (DirEntry.name ⟨"sprint-2", true⟩) "sprint-" = true) :=
  ⟨by decide,
   (claim_c9_scan_sprint_folders
       [⟨"sprint-10", true⟩, ⟨"SPRINT-AB12", true⟩, ⟨"sprint-2", true⟩, ⟨"notes", false⟩]).2.2
     ⟨"sprint-2", true⟩ (by decide)⟩

/-- Any ratio of a count over a larger count scaled to a percentage lies
between zero and one hundred, division by zero giving zero. -/
theorem pct_bounds (c t : Nat) (h : c ≤ t) :
    0 ≤ (c : ℚ) / (t : ℚ) * 100 ∧ (c : ℚ) / (t : ℚ) * 100 ≤ 100 := by
  rcases Nat.eq_zero_or_pos t with ht | ht
  · subst ht
    simp
  · have ht' : (0 : ℚ) < (t : ℚ) := by exact_mod_cast ht
    have h1 : (c : ℚ) / (t : ℚ) ≤ 1 := (div_le_one ht').mpr (by exact_mod_cast h)
    have h0 : (0 : ℚ) ≤ (c : ℚ) / (t : ℚ) := by positivity
    constructor
    · linarith
    · linarith

/-- C10: every stride satisfies the per-stride invariants, completed at
most total with the percentage between zero and one hundred, and the
progress rollup satisfies the corresponding rollup invariants for both the
stride totals and the acceptance criteria. -/
theorem claim_c10_progress_invariants (strides : List StrideTask)
    (acceptance : List CheckboxItem) :
    (∀ s ∈ strides,
        s.completed_tasks ≤ s.total_tasks ∧
        0 ≤ s.completion_percentage ∧ s.completion_percentage ≤ 100) ∧
    (calculate_progress strides acceptance).completed_tasks ≤
      (calculate_progress strides acceptance).total_tasks ∧
    0 ≤ (calculate_progress strides acceptance).completion_percentage ∧
    (calculate_progress strides acceptance).completion_percentage ≤ 100 ∧
    0 ≤ (calculate_progress strides acceptance).acceptance_criteria_percentage ∧
    (calculate_progress strides acceptance).acceptance_criteria_percentage ≤ 100 := by
  have hper : ∀ s : StrideTask,
      s.completed_tasks ≤ s.total_tasks ∧
      0 ≤ s.completion_percentage ∧ s.completion_percentage ≤ 100 := by
    intro s
    have hc : s.completed_tasks ≤ s.total_tasks := List.countP_le_length _
    refine ⟨hc, ?_, ?_⟩ <;> rw [StrideTask.completion_percentage] <;> split_ifs
    · exact le_refl 0
    · exact (pct_bounds _ _ hc).1
    · norm_num
    · exact (pct_bounds _ _ hc).2
  have hsum : (strides.map StrideTask.completed_tasks).sum ≤
      (strides.map StrideTask.total_tasks).sum :=
    List.sum_le_sum (fun s _ => (hper s).1)
  have hacc : (calculate_completion acceptance).1 ≤ (calculate_completion acceptance).2.1 ∧
      0 ≤ (calculate_completion acceptance).2.2 ∧
      (calculate_completion acceptance).2.2 ≤ 100 := by
    rw [calculate_completion]
    split_ifs with he
    · exact ⟨le_refl 0, le_refl 0, by norm_num⟩
    · have hc : acceptance.countP (fun cb => cb.checked) ≤ acceptance.length :=
        List.countP_le_length _
      refine ⟨hc, ?_, ?_⟩ <;> simp only <;> split_ifs
      · exact (pct_bounds _ _ hc).1
      · exact le_refl 0
      · exact (pct_bounds _ _ hc).2
      · norm_num
  refine ⟨fun s _ => hper s, ?_, ?_, ?_, ?_, ?_⟩ <;>
    simp only [calculate_progress]
  · exact hsum
  · split_ifs
    · exact (pct_bounds _ _ hsum).1
    · exact le_refl 0
  · split_ifs
    · exact (pct_bounds _ _ hsum).2
    · norm_num
  · exact hacc.2.1
  · exact hacc.2.2

/-- Witness for C10 at a concrete stride with one checked and one
unchecked task. -/
theorem claim_c10_progress_invariants_witness :
    (⟨1, "s", "", [⟨"a", true, 1⟩, ⟨"b", false, 2⟩], ""⟩ : StrideTask).completed_tasks ≤
      (⟨1, "s", "", [⟨"a", true, 1⟩, ⟨"b", false, 2⟩], ""⟩ : StrideTask).total_tasks ∧
    0 ≤ (⟨1, "s", "", [⟨"a", true, 1⟩, ⟨"b", false, 2⟩], ""⟩ : StrideTask).completion_percentage ∧
    (⟨1, "s", "", [⟨"a", true, 1⟩, ⟨"b", false, 2⟩], ""⟩ :
        StrideTask).completion_percentage ≤ 100 :=
  (claim_c10_progress_invariants [⟨1, "s", "", [⟨"a", true, 1⟩, ⟨"b", false, 2⟩], ""⟩] []).1
    ⟨1, "s", "", [⟨"a", true, 1⟩, ⟨"b", false, 2⟩], ""⟩ (by decide)

/-- Witness for C4 at a concrete progress record with one incomplete
stride. -/
theorem claim_c4_current_stride_witness :
    (⟨1, "w", "", [⟨"k", false, 1⟩], ""⟩ : StrideTask).completed_tasks <
      (⟨1, "w", "", [⟨"k", false, 1⟩], ""⟩ : StrideTask).total_tasks ∧
    ∃ l₁ l₂,
      (⟨1, 0, 0, [⟨1, "w", "", [⟨"k", false, 1⟩], ""⟩], 0, 0, 0⟩ :
          SprintProgress).strides =
        l₁ ++ (⟨1, "w", "", [⟨"k", false, 1⟩], ""⟩ : StrideTask) :: l₂ ∧
      ∀ t ∈ l₁, t.total_tasks ≤ t.completed_tasks :=
  (claim_c4_current_stride ⟨1, 0, 0, [⟨1, "w", "", [⟨"k", false, 1⟩], ""⟩], 0, 0, 0⟩).2
    ⟨1, "w", "", [⟨"k", false, 1⟩], ""⟩ (by decide)

end Stride

-- sanity checks on the pattern models (matching what the Python regexes do)
example : Stride.matchStrideHeading "### **Stride 1: A**" = some (1, "A") := by decide

example : Stride.matchStrideHeading "### Stride 2: B" = none := by decide

example : Stride.matchStrideHeading "### **Stride 12:  Setup Phase** extra" =
    some (12, "Setup Phase") := by decide

example : Stride.matchTimestamp "## [Timestamp: 2024-01-02 10:00] Stride: Setup" =
    some ("2024-01-02 10:00", "Setup") := by decide

example : Stride.matchTimestamp "### [Timestamp: T] Stride: S" = none := by decide

example : Stride.checkboxMatch "  - [x] do it" = some ('x', "do it") := by decide

example : Stride.checkboxMatch "- [ ] later" = some (' ', "later") := by decide

example : Stride.checkboxMatch "- [y] nope" = none := by decide

example : Stride.hasSubS "### Stride 2: B" "Stride" = true := by decide
